import Mathlib

/-!
Verification of the dsRAG Azure integration layer and of the Relevant
Segment Extraction (RSE) core described in the accompanying design document.

The Azure collaborator code (`dsrag/azure/azure_cohere_reranker.py`,
`dsrag/azure/blob_storage.py`, `dsrag/azure/azure_openai_embedding.py`,
`dsrag/dsparse/file_parsing/vlm.py`) is embedded shallowly below: network
and SDK calls become explicit function parameters describing their
outcomes, Python functions that may raise become `Except`-valued
functions, and a caught exception therefore shows up as an `Except.ok`
result.  The RSE core itself (score calibration presets and segment
search) is not part of the Azure sources; where needed it is modelled
directly from the design document, and those definitions are marked as
such in their doc comments.

Real-valued scores are embedded as `ℝ` where the mathematics requires it
(the Beta-CDF calibration) and as `ℚ` in the purely order-theoretic
segment-search model, so that concrete counterexamples stay decidable.
-/

/-! ### Score calibration: `AzureCohereReranker.transform` -/

/-- Integrand of the (unnormalized) Beta density with shape parameters
`a` and `b`: the function `t ^ (a - 1) * (1 - t) ^ (b - 1)`. -/
noncomputable def betaIntegrand (a b t : ℝ) : ℝ :=
  t ^ (a - 1) * (1 - t) ^ (b - 1)

/-- Normalizing constant of the Beta distribution, `B(a, b)`. -/
noncomputable def betaNormalization (a b : ℝ) : ℝ :=
  ∫ t in (0 : ℝ)..1, betaIntegrand a b t

/-- Cumulative distribution function of the Beta distribution with shape
parameters `a` and `b`, i.e. the regularized incomplete Beta function,
for arguments in `[0, 1]`.  This models `scipy.stats.beta.cdf`, the
external routine invoked by `AzureCohereReranker.transform`. -/
noncomputable def betaCdf (a b x : ℝ) : ℝ :=
  (∫ t in (0 : ℝ)..x, betaIntegrand a b t) / betaNormalization a b

/-- Model of `AzureCohereReranker.transform`: the raw relevance score is
passed through `beta.cdf(x, a, b)` with `a = b = 0.4`. -/
noncomputable def transform (x : ℝ) : ℝ :=
  betaCdf 0.4 0.4 x

/-! ### Reranking: `AzureCohereReranker.rerank_search_results` -/

/-- A search result dictionary as consumed by `rerank_search_results`:
the metadata fields used to build the rerank document, plus the
similarity score that the reranker overwrites. -/
structure SearchResult where
  chunk_header : String
  chunk_text : String
  similarity : ℝ

instance : Inhabited SearchResult := ⟨⟨"", "", 0⟩⟩

/-- Identity of a search result with the similarity score forgotten. -/
def stripSimilarity (r : SearchResult) : String × String :=
  (r.chunk_header, r.chunk_text)

/-- Document string built for each search result before calling the
Cohere rerank endpoint: `chunk_header`, a blank line, `chunk_text`. -/
def rerankDocument (r : SearchResult) : String :=
  r.chunk_header ++ "\n\n" ++ r.chunk_text

/-- Core of `rerank_search_results`, parameterized by the calibration
function `F`.  The provider returns a list of `(index, relevance_score)`
pairs; the code selects `search_results[index]` for each pair (an
out-of-range index raises, modelled by `none`) and sets the similarity
of the selected result to `F relevance_score`. -/
def rerank_core (F : ℝ → ℝ) (search_results : List SearchResult) :
    List (ℕ × ℝ) → Option (List SearchResult)
  | [] => some []
  | p :: rest =>
    match search_results[p.1]?, rerank_core F search_results rest with
    | some r, some out => some ({ r with similarity := F p.2 } :: out)
    | _, _ => none

/-- Model of `AzureCohereReranker.rerank_search_results`: builds the
document list from the search results, calls the rerank provider
(modelled as a function from the query and documents to a list of
`(index, relevance_score)` pairs), reorders the search results by the
returned indices and overwrites each similarity with the calibrated
provider score. -/
noncomputable def rerank_search_results (query : String)
    (search_results : List SearchResult)
    (provider : String → List String → List (ℕ × ℝ)) :
    Option (List SearchResult) :=
  rerank_core transform search_results
    (provider query (search_results.map rerankDocument))

/-! ### Azure blob storage: `AzureBlobStorage` -/

/-- Outcome of a single Azure SDK `download_blob().readall()` call as
seen by the storage layer: the blob content, a `ResourceNotFoundError`,
or any other exception (with its message). -/
inductive DownloadOutcome where
  | ok (content : String)
  | notFound
  | err (msg : String)
deriving DecidableEq

/-- A parsed JSON document, abstracted as a list of key/value pairs. -/
abbrev JsonDict : Type := List (String × String)

/-- Blob path used by `load_data`: `{kb_id}/{doc_id}/{data_name}.json`. -/
def data_blob_path (kb_id doc_id data_name : String) : String :=
  kb_id ++ "/" ++ doc_id ++ "/" ++ data_name ++ ".json"

/-- Model of `AzureBlobStorage.load_data`.  The blob store is a function
from blob paths to download outcomes and `parseJson` models
`json.loads`.  A `ResourceNotFoundError`, a JSON decode error, and any
other exception are all caught (a message is printed) and `None` is
returned; the `Except` codomain records whether an exception escapes to
the caller. -/
def load_data (store : String → DownloadOutcome)
    (parseJson : String → Except String JsonDict)
    (kb_id doc_id data_name : String) : Except String (Option JsonDict) :=
  match store (data_blob_path kb_id doc_id data_name) with
  | .ok s =>
    match parseJson s with
    | .ok d => .ok (some d)
    | .error _ => .ok none
  | .notFound => .ok none
  | .err _ => .ok none

/-- Sequential deletion of a list of blobs; the first failing deletion
aborts the loop with that error, as in the Python `for` loop. -/
def delete_blobs (deleteBlob : String → Except String Unit) :
    List String → Except String Unit
  | [] => .ok ()
  | b :: rest =>
    match deleteBlob b with
    | .ok _ => delete_blobs deleteBlob rest
    | .error e => .error e

/-- Model of `AzureBlobStorage.delete_directory`: lists all blobs under
the directory and deletes them one by one; any exception raised while
listing or deleting is caught and printed, and the call returns
normally. -/
def delete_directory (listBlobs : Except String (List String))
    (deleteBlob : String → Except String Unit) : Except String Unit :=
  match
    (match listBlobs with
     | .ok bs => delete_blobs deleteBlob bs
     | .error e => .error e) with
  | .ok _ => .ok ()
  | .error _ => .ok ()

/-- Extensions tried by `get_files`, in order. -/
def image_extensions : List String := [".jpg", ".jpeg", ".png"]

/-- Blob path for a page image: `{kb_id}/{doc_id}/page_{i}{ext}`. -/
def page_blob_path (kb_id doc_id : String) (i : ℕ) (ext : String) : String :=
  kb_id ++ "/" ++ doc_id ++ "/page_" ++ toString i ++ ext

/-- Inner extension loop of `get_files`: the first extension whose blob
downloads successfully yields the local file path; both a
`ResourceNotFoundError` and any other download error move on to the
next extension. -/
def try_extensions (store : String → DownloadOutcome)
    (base_path kb_id doc_id : String) (i : ℕ) : List String → Option String
  | [] => none
  | ext :: rest =>
    match store (page_blob_path kb_id doc_id i ext) with
    | .ok _ => some (base_path ++ "/" ++ page_blob_path kb_id doc_id i ext)
    | .notFound => try_extensions store base_path kb_id doc_id i rest
    | .err _ => try_extensions store base_path kb_id doc_id i rest

/-- Page loop of `get_files`: each page for which no extension yields a
blob is skipped after printing a warning. -/
def get_files_loop (store : String → DownloadOutcome)
    (base_path kb_id doc_id : String) : List ℕ → List String
  | [] => []
  | i :: rest =>
    match try_extensions store base_path kb_id doc_id i image_extensions with
    | some path => path :: get_files_loop store base_path kb_id doc_id rest
    | none => get_files_loop store base_path kb_id doc_id rest

/-- Model of `AzureBlobStorage.get_files`: downloads the page images for
pages `page_start .. page_end` (inclusive), returning the local paths of
the files actually found; a `None` bound short-circuits to the empty
list.  All download errors are handled inside the loop. -/
def get_files (store : String → DownloadOutcome)
    (base_path kb_id doc_id : String)
    (page_start page_end : Option ℕ) : Except String (List String) :=
  match page_start, page_end with
  | some ps, some pe =>
    .ok (get_files_loop store base_path kb_id doc_id
      (List.range' ps (pe + 1 - ps)))
  | _, _ => .ok []

/-- Blob path used for page content:
`{kb_id}/{doc_id}/page_content_{page_number}.json`. -/
def page_content_path (kb_id doc_id : String) (page_number : ℕ) : String :=
  kb_id ++ "/" ++ doc_id ++ "/page_content_" ++ toString page_number ++ ".json"

/-- Model of `AzureBlobStorage.load_page_content`.  `parseContent`
models `json.loads` followed by the `["content"]` lookup.  A
`ResourceNotFoundError` returns `None`; any other exception is caught,
printed, and also yields `None`. -/
def load_page_content (store : String → DownloadOutcome)
    (parseContent : String → Except String String)
    (kb_id doc_id : String) (page_number : ℕ) : Except String (Option String) :=
  match store (page_content_path kb_id doc_id page_number) with
  | .ok s =>
    match parseContent s with
    | .ok c => .ok (some c)
    | .error _ => .ok none
  | .notFound => .ok none
  | .err _ => .ok none

/-- The page content `load_page_content` produces for one page, as an
option: the parsed content when the blob exists and parses, `none`
otherwise. -/
def page_content_opt (store : String → DownloadOutcome)
    (parseContent : String → Except String String)
    (kb_id doc_id : String) (page_number : ℕ) : Option String :=
  match store (page_content_path kb_id doc_id page_number) with
  | .ok s =>
    match parseContent s with
    | .ok c => some c
    | .error _ => none
  | .notFound => none
  | .err _ => none

/-- Page loop of `load_page_content_range`: contents that come back as
`None` are dropped; an exception escaping `load_page_content` would
propagate. -/
def load_page_content_range_loop (store : String → DownloadOutcome)
    (parseContent : String → Except String String)
    (kb_id doc_id : String) : List ℕ → Except String (List String)
  | [] => .ok []
  | p :: rest =>
    match load_page_content store parseContent kb_id doc_id p with
    | .ok (some c) =>
      match load_page_content_range_loop store parseContent kb_id doc_id rest with
      | .ok cs => .ok (c :: cs)
      | .error e => .error e
    | .ok none => load_page_content_range_loop store parseContent kb_id doc_id rest
    | .error e => .error e

/-- Model of `AzureBlobStorage.load_page_content_range`: loads pages
`page_start .. page_end` (inclusive) and keeps the non-`None` contents. -/
def load_page_content_range (store : String → DownloadOutcome)
    (parseContent : String → Except String String)
    (kb_id doc_id : String) (page_start page_end : ℕ) :
    Except String (List String) :=
  load_page_content_range_loop store parseContent kb_id doc_id
    (List.range' page_start (page_end + 1 - page_start))

/-! ### Image compression: `dsparse.file_parsing.vlm.compress_image` -/

/-- Quality-reduction loop of `compress_image`: while the JPEG encoding
at the current quality exceeds `max_size_bytes` and the quality is
greater than 10, reduce the quality by 5 and re-encode.  `enc w h q` is
the abstract size in bytes of the JPEG encoding of a `w × h` image at
quality `q`. -/
def reduce_quality (enc : ℕ → ℕ → ℕ → ℕ) (w h max_size_bytes : ℕ)
    (quality : ℕ) : ℕ :=
  if max_size_bytes < enc w h quality ∧ 10 < quality then
    reduce_quality enc w h max_size_bytes (quality - 5)
  else
    quality
termination_by quality
decreasing_by omega

/-- Dimension-reduction loop of `compress_image`: while the encoding at
the (already final) quality exceeds the budget, scale both dimensions by
0.9 (integer truncation) and re-encode.  The Python loop has no
termination guarantee of its own, so the model carries fuel and returns
`none` where the Python code would not return. -/
def shrink_dims (enc : ℕ → ℕ → ℕ → ℕ) (max_size_bytes quality : ℕ) :
    ℕ → ℕ × ℕ → Option (ℕ × ℕ)
  | 0, _ => none
  | fuel + 1, (w, h) =>
    if max_size_bytes < enc w h quality then
      shrink_dims enc max_size_bytes quality fuel (w * 9 / 10, h * 9 / 10)
    else
      some (w, h)

/-- Model of `compress_image`: first the quality-reduction loop, then
the dimension-reduction loop; the result is the final width, height and
JPEG quality of the compressed image. -/
def compress_image (enc : ℕ → ℕ → ℕ → ℕ) (w h : ℕ)
    (max_size_bytes quality fuel : ℕ) : Option (ℕ × ℕ × ℕ) :=
  let q := reduce_quality enc w h max_size_bytes quality
  match shrink_dims enc max_size_bytes q fuel (w, h) with
  | some (w2, h2) => some (w2, h2, q)
  | none => none

/-! ### Embeddings: `AzureOpenAIEmbedding.get_embeddings` -/

/-- Input of `get_embeddings`: a single string or a list of strings. -/
inductive TextInput where
  | single (s : String)
  | batch (l : List String)

/-- Result of `get_embeddings`: one vector for a single-string input, a
list of vectors for a list input. -/
inductive EmbeddingsResult where
  | vec (v : List ℝ)
  | vecs (vs : List (List ℝ))

/-- Model of `AzureOpenAIEmbedding.get_embeddings`.  A single string is
wrapped in a singleton list before the provider call; for a single
string the first returned embedding is extracted (`embeddings[0]`, an
`IndexError` on an empty response modelled by `none`), for a list the
whole response is returned. -/
def get_embeddings (provider : List String → List (List ℝ)) :
    TextInput → Option EmbeddingsResult
  | .single s =>
    match (provider [s]).head? with
    | some v => some (.vec v)
    | none => none
  | .batch l => some (.vecs (provider l))

/-! ### RSE presets and segment search (modelled from the spec) -/

/-- Modelled from the spec: the `Preset` record of numeric parameters
consumed by relevance-matrix building and segment search (data model
section).  Scores use `ℚ` in this model. -/
structure Preset where
  irrelevant_chunk_penalty : ℚ
  max_length : ℕ
  overall_max_length : ℕ
  minimum_value : ℚ
  max_segments : ℕ
deriving DecidableEq

/-- Modelled from the spec: the static preset mapping of the Preset
Resolver, holding at minimum `"balanced"` and `"find_all"`.  The exact
numeric defaults are declared tunable by the spec; representative
values are used here. -/
def preset_map : List (String × Preset) :=
  [("balanced", ⟨18/100, 15, 30, 7/10, 10⟩),
   ("find_all", ⟨18/100, 40, 200, 4/10, 100⟩)]

/-- Modelled from the spec: resolving a preset name through the static
mapping; an identifier not present in the mapping is a configuration
error. -/
def resolve (name : String) : Except String Preset :=
  match preset_map.lookup name with
  | some p => .ok p
  | none => .error ("Invalid preset name: " ++ name)

/-- Modelled from the spec: the prefix of a query call relevant to
configuration handling.  The selection configuration is either a preset
name or an explicit `Preset`; the name is resolved first and only on
success is the scoring and segment-search work (abstracted as `score`)
performed. -/
def run_query {α : Type} (cfg : Sum String Preset) (score : Preset → α) :
    Except String α :=
  match cfg with
  | .inl name =>
    match resolve name with
    | .ok p => .ok (score p)
    | .error e => .error e
  | .inr p => .ok (score p)

/-- A candidate or returned segment: a document id, an inclusive chunk
index range, and the segment value. -/
structure Window where
  doc_id : String
  chunk_start : ℕ
  chunk_end : ℕ
  value : ℚ
deriving DecidableEq

/-- Modelled from the spec: the value of the window `[i, j]` is the sum
of the relevance values of its member chunks. -/
def window_value (vals : List ℚ) (i j : ℕ) : ℚ :=
  ((vals.drop i).take (j - i + 1)).sum

/-- Modelled from the spec: per-document candidate enumeration of the
Segment Search Engine — every window `[i, i + k]` inside the document
with length at most `max_length` and value at least `minimum_value`. -/
def enumerate_windows (doc_id : String) (vals : List ℚ)
    (max_length : ℕ) (minimum_value : ℚ) : List Window :=
  (List.range vals.length).flatMap fun i =>
    (List.range max_length).filterMap fun k =>
      if i + k < vals.length ∧ minimum_value ≤ window_value vals i (i + k) then
        some ⟨doc_id, i, i + k, window_value vals i (i + k)⟩
      else
        none

/-- Number of chunks covered by a window (inclusive range). -/
def seg_length (w : Window) : ℕ :=
  w.chunk_end - w.chunk_start + 1

/-- Two windows overlap when they are in the same document and their
inclusive chunk ranges intersect. -/
def overlaps (w1 w2 : Window) : Prop :=
  w1.doc_id = w2.doc_id ∧ w1.chunk_start ≤ w2.chunk_end ∧
    w2.chunk_start ≤ w1.chunk_end

instance (w1 w2 : Window) : Decidable (overlaps w1 w2) :=
  decidable_of_iff
    (w1.doc_id = w2.doc_id ∧ w1.chunk_start ≤ w2.chunk_end ∧
      w2.chunk_start ≤ w1.chunk_end) Iff.rfl

/-- Modelled from the spec: greedy global selection of the Segment
Search Engine.  Candidates are scanned in order; a window is accepted
when it does not overlap any previously accepted window of the same
document, the accepted count stays below `max_segments`, and the
cumulative chunk count stays within `overall_max_length`. -/
def greedy_go (max_segments overall_max_length : ℕ) :
    List Window → List Window → ℕ → List Window
  | [], acc, _ => acc.reverse
  | w :: rest, acc, used =>
    if (∀ a ∈ acc, ¬ overlaps w a) ∧ acc.length < max_segments ∧
        used + seg_length w ≤ overall_max_length then
      greedy_go max_segments overall_max_length rest (w :: acc)
        (used + seg_length w)
    else
      greedy_go max_segments overall_max_length rest acc used

/-- Modelled from the spec: pooled candidates are sorted by descending
value; the stable merge sort realizes the tie-break by document
insertion order and then by lower `chunk_start`, since candidates are
generated in that order. -/
def sort_windows (ws : List Window) : List Window :=
  ws.mergeSort (fun a b => decide (b.value ≤ a.value))

/-- Modelled from the spec: the Segment Search Engine.  Input is one
relevance-value sequence per document (as produced by the Relevance
Matrix Builder); candidates are enumerated per document, pooled, sorted
by descending value and selected greedily under the preset budgets. -/
def segment_search (docs : List (String × List ℚ)) (p : Preset) :
    List Window :=
  greedy_go p.max_segments p.overall_max_length
    (sort_windows (docs.flatMap fun d =>
      enumerate_windows d.1 d.2 p.max_length p.minimum_value)) [] 0

/-! ## Theorems -/

/-! ### Claim C5: storage error propagation -/

/-- C5 counterexample: an exception raised by the blob store while
loading data or deleting a directory does not propagate to the caller;
`load_data` converts it to a `None` result and `delete_directory`
swallows it and returns normally. -/
theorem load_data_swallows_error_cex :
    load_data (fun _ => .err "boom") (fun s => .ok [("content", s)])
        "kb" "doc" "chunks" = .ok none ∧
    load_data (fun _ => .err "boom") (fun s => .ok [("content", s)])
        "kb" "doc" "chunks" ≠ .error "boom" ∧
    delete_directory (.error "boom") (fun _ => .ok ()) = .ok () ∧
    delete_directory (.error "boom") (fun _ => .ok ()) ≠ .error "boom" := by
  refine ⟨rfl, ?_, rfl, ?_⟩ <;> intro h <;>
    simp [load_data, delete_directory, data_blob_path] at h

/-- C5 amended: collaborator failures during `load_data` and
`delete_directory` are caught by the Azure blob storage layer rather
than propagated: `load_data` always returns normally (with `None` on
any storage or decode error) and `delete_directory` always returns
normally. -/
theorem storage_errors_swallowed :
    (∀ store parseJson kb_id doc_id data_name,
      ∃ r, load_data store parseJson kb_id doc_id data_name = .ok r) ∧
    (∀ listBlobs deleteBlob,
      delete_directory listBlobs deleteBlob = .ok ()) := by
  constructor
  · intro store parseJson kb_id doc_id data_name
    cases hs : store (data_blob_path kb_id doc_id data_name) with
    | ok s =>
      cases hp : parseJson s with
      | ok d => exact ⟨some d, by simp [load_data, hs, hp]⟩
      | error e => exact ⟨none, by simp [load_data, hs, hp]⟩
    | notFound => exact ⟨none, by simp [load_data, hs]⟩
    | err m => exact ⟨none, by simp [load_data, hs]⟩
  · intro listBlobs deleteBlob
    cases listBlobs with
    | error e => rfl
    | ok bs =>
      cases h : delete_blobs deleteBlob bs <;>
        simp [delete_directory, h]

/-! ### Claim C10: `load_page_content` on a missing blob -/

/-- C10: when the backing blob for a page does not exist
(`ResourceNotFoundError`), `load_page_content` returns `None` instead
of raising an exception. -/
theorem load_page_content_missing_returns_none
    (store : String → DownloadOutcome)
    (parseContent : String → Except String String)
    (kb_id doc_id : String) (page_number : ℕ)
    (h : store (page_content_path kb_id doc_id page_number) = .notFound) :
    load_page_content store parseContent kb_id doc_id page_number =
      .ok none := by
  simp [load_page_content, h]

/-- Witness for C10 at a concrete empty store. -/
theorem load_page_content_missing_returns_none_witness :
    (fun _ : String => DownloadOutcome.notFound)
        (page_content_path "kb" "doc" 0) = .notFound ∧
    load_page_content (fun _ => .notFound) (fun s => .ok s) "kb" "doc" 0 =
      .ok none :=
  ⟨rfl, load_page_content_missing_returns_none _ _ _ _ _ rfl⟩

/-! ### Claim C7: missing stored items are skipped, not surfaced -/

/-- One call of `load_page_content` always succeeds, producing exactly
the optional content described by `page_content_opt`. -/
theorem load_page_content_eq (store : String → DownloadOutcome)
    (parseContent : String → Except String String)
    (kb_id doc_id : String) (page_number : ℕ) :
    load_page_content store parseContent kb_id doc_id page_number =
      .ok (page_content_opt store parseContent kb_id doc_id page_number) := by
  cases hs : store (page_content_path kb_id doc_id page_number) with
  | ok s =>
    cases hp : parseContent s <;>
      simp [load_page_content, page_content_opt, hs, hp]
  | notFound => simp [load_page_content, page_content_opt, hs]
  | err m => simp [load_page_content, page_content_opt, hs]

/-- The page loop of `get_files` keeps exactly the pages for which some
extension has a downloadable blob. -/
theorem get_files_loop_eq_filterMap (store : String → DownloadOutcome)
    (base_path kb_id doc_id : String) (pages : List ℕ) :
    get_files_loop store base_path kb_id doc_id pages =
      pages.filterMap
        (fun i => try_extensions store base_path kb_id doc_id i
          image_extensions) := by
  induction pages with
  | nil => rfl
  | cons i rest ih =>
    cases ht : try_extensions store base_path kb_id doc_id i image_extensions <;>
      simp [get_files_loop, List.filterMap_cons, ht, ih]

/-- The page loop of `load_page_content_range` never raises and keeps
exactly the pages whose content loads. -/
theorem load_page_content_range_loop_eq (store : String → DownloadOutcome)
    (parseContent : String → Except String String)
    (kb_id doc_id : String) (pages : List ℕ) :
    load_page_content_range_loop store parseContent kb_id doc_id pages =
      .ok (pages.filterMap
        (page_content_opt store parseContent kb_id doc_id)) := by
  induction pages with
  | nil => rfl
  | cons p rest ih =>
    cases hc : page_content_opt store parseContent kb_id doc_id p <;>
      simp [load_page_content_range_loop, load_page_content_eq,
        List.filterMap_cons, hc, ih]

/-- C7 counterexample: with pages 1 and 3 present but page 2 missing,
`get_files` for the range 1..3 returns a normal, shorter result (2
files for 3 requested pages) instead of surfacing an error. -/
theorem get_files_skips_missing_pages_cex :
    get_files
        (fun path =>
          if path = page_blob_path "kb" "doc" 1 ".jpg" ∨
              path = page_blob_path "kb" "doc" 3 ".jpg" then
            .ok "img"
          else
            .notFound)
        "base" "kb" "doc" (some 1) (some 3) =
      .ok ["base/kb/doc/page_1.jpg", "base/kb/doc/page_3.jpg"] ∧
    (List.range' 1 (3 + 1 - 1)).length = 3 :=
  ⟨rfl, rfl⟩

/-- C7 amended: a request touching pages whose backing objects do not
exist does not surface an error; `get_files` and
`load_page_content_range` silently skip the missing items (after
printing a warning) and return the possibly shorter list of found
items. -/
theorem missing_items_skipped_not_error
    (store : String → DownloadOutcome)
    (parseContent : String → Except String String)
    (base_path kb_id doc_id : String) (page_start page_end : ℕ) :
    get_files store base_path kb_id doc_id (some page_start) (some page_end) =
      .ok ((List.range' page_start (page_end + 1 - page_start)).filterMap
        (fun i => try_extensions store base_path kb_id doc_id i
          image_extensions)) ∧
    load_page_content_range store parseContent kb_id doc_id
        page_start page_end =
      .ok ((List.range' page_start (page_end + 1 - page_start)).filterMap
        (page_content_opt store parseContent kb_id doc_id)) :=
  ⟨by simp [get_files, get_files_loop_eq_filterMap],
   by simp [load_page_content_range, load_page_content_range_loop_eq]⟩

/-! ### Claim C6: unknown preset identifiers fail fast -/

/-- C6: resolving a preset identifier absent from the preset mapping
yields a configuration error, and the result does not depend on the
scoring function — no scoring work is performed. -/
theorem resolve_unknown_preset_fails_fast {α : Type} (name : String)
    (score1 score2 : Preset → α)
    (h : preset_map.lookup name = none) :
    (∃ e, run_query (.inl name) score1 = .error e) ∧
    run_query (.inl name) score1 = run_query (.inl name) score2 := by
  refine ⟨⟨"Invalid preset name: " ++ name, ?_⟩, ?_⟩ <;>
    simp [run_query, resolve, h]

/-- Witness for C6 at the unknown name `"unknown_name"`. -/
theorem resolve_unknown_preset_fails_fast_witness :
    preset_map.lookup "unknown_name" = none ∧
    ((∃ e, run_query (Sum.inl "unknown_name") (fun _ : Preset => (0 : ℕ)) =
        .error e) ∧
      run_query (Sum.inl "unknown_name") (fun _ : Preset => (0 : ℕ)) =
        run_query (Sum.inl "unknown_name") (fun _ : Preset => (1 : ℕ))) :=
  ⟨rfl, resolve_unknown_preset_fails_fast "unknown_name" _ _ rfl⟩

/-! ### Claim C9: `get_embeddings` shape -/

/-- C9: when the embedding provider returns one embedding per input in
order, `get_embeddings` returns a single vector for a single-string
input, and for a list of `n` strings a list of exactly `n` vectors in
input order. -/
theorem get_embeddings_shape (provider : List String → List (List ℝ))
    (embedOf : String → List ℝ)
    (hp : ∀ ts, provider ts = ts.map embedOf) :
    (∀ s, get_embeddings provider (.single s) = some (.vec (embedOf s))) ∧
    (∀ l, get_embeddings provider (.batch l) = some (.vecs (l.map embedOf)) ∧
      (l.map embedOf).length = l.length) := by
  constructor
  · intro s
    simp [get_embeddings, hp]
  · intro l
    exact ⟨by simp [get_embeddings, hp], by simp⟩

/-- Witness for C9 with a concrete in-order provider. -/
theorem get_embeddings_shape_witness :
    (fun l : List String => l.map (fun _ => ([] : List ℝ))) ["a"] =
      ["a"].map (fun _ => ([] : List ℝ)) ∧
    get_embeddings (fun l => l.map (fun _ => ([] : List ℝ))) (.single "a") =
      some (.vec []) ∧
    get_embeddings (fun l => l.map (fun _ => ([] : List ℝ)))
        (.batch ["a", "b"]) = some (.vecs [[], []]) :=
  ⟨rfl,
   (get_embeddings_shape _ _ (fun _ => rfl)).1 "a",
   ((get_embeddings_shape _ _ (fun _ => rfl)).2 ["a", "b"]).1⟩

/-! ### Claim C8: `compress_image` bounds -/

/-- The quality-reduction loop never lowers the quality below
`min quality 6` and never raises it. -/
theorem reduce_quality_bounds (enc : ℕ → ℕ → ℕ → ℕ)
    (w h max_size_bytes : ℕ) :
    ∀ q, min q 6 ≤ reduce_quality enc w h max_size_bytes q ∧
      reduce_quality enc w h max_size_bytes q ≤ q := by
  intro q
  induction q using Nat.strong_induction_on with
  | _ q ih =>
    rw [reduce_quality]
    split
    · next hc =>
      have h5 := ih (q - 5) (by omega)
      exact ⟨le_trans (by omega) h5.1, h5.2.trans (by omega)⟩
    · exact ⟨min_le_left q 6, le_refl q⟩

/-- When the dimension-reduction loop returns, the encoding of the
returned dimensions at the given quality fits the budget. -/
theorem shrink_dims_size (enc : ℕ → ℕ → ℕ → ℕ) (max_size_bytes quality : ℕ) :
    ∀ fuel w h w2 h2,
      shrink_dims enc max_size_bytes quality fuel (w, h) = some (w2, h2) →
      enc w2 h2 quality ≤ max_size_bytes := by
  intro fuel
  induction fuel with
  | zero =>
    intro w h w2 h2 hr
    simp [shrink_dims] at hr
  | succ f ih =>
    intro w h w2 h2 hr
    simp only [shrink_dims] at hr
    split at hr
    · exact ih _ _ _ _ hr
    · next hc =>
      simp only [Option.some.injEq, Prod.mk.injEq] at hr
      obtain ⟨rfl, rfl⟩ := hr
      omega

/-- C8 counterexample: with an encoder that is over budget exactly for
qualities of at least 10 and a starting quality of 14, the
quality-reduction loop lowers the JPEG quality to 9, i.e. below 10. -/
theorem compress_image_quality_below_ten_cex :
    compress_image (fun _ _ q => if 10 ≤ q then 2 else 0) 100 100 1 14 1 =
      some (100, 100, 9) ∧ 9 < 10 := by
  constructor
  · have h1 : reduce_quality (fun _ _ q => if 10 ≤ q then 2 else 0)
        100 100 1 14 = 9 := by
      rw [reduce_quality]
      norm_num
      rw [reduce_quality]
      norm_num
    simp [compress_image, h1, shrink_dims]
  · norm_num

/-- C8 amended: whenever `compress_image` returns, the JPEG encoding of
the returned image at the final quality used is at most
`max_size_bytes`, and the quality-reduction loop never lowers the
quality below `min quality 6` (one reduction step can land as low as 6,
so the floor of 10 claimed for arbitrary starting qualities only holds
for the reachable stop values above 5). -/
theorem compress_image_size_and_quality_bounds (enc : ℕ → ℕ → ℕ → ℕ)
    (w h max_size_bytes quality fuel w2 h2 q2 : ℕ)
    (hr : compress_image enc w h max_size_bytes quality fuel =
      some (w2, h2, q2)) :
    enc w2 h2 q2 ≤ max_size_bytes ∧ min quality 6 ≤ q2 ∧ q2 ≤ quality := by
  simp only [compress_image] at hr
  cases hs : shrink_dims enc max_size_bytes
      (reduce_quality enc w h max_size_bytes quality) fuel (w, h) with
  | none => rw [hs] at hr; cases hr
  | some p =>
    obtain ⟨pw, ph⟩ := p
    rw [hs] at hr
    simp only [Option.some.injEq, Prod.mk.injEq] at hr
    obtain ⟨rfl, rfl, rfl⟩ := hr
    exact ⟨shrink_dims_size enc max_size_bytes _ fuel w h pw ph hs,
      (reduce_quality_bounds enc w h max_size_bytes quality).1,
      (reduce_quality_bounds enc w h max_size_bytes quality).2⟩

/-- Witness for the amended C8 at a concrete always-small encoder. -/
theorem compress_image_size_and_quality_bounds_witness :
    compress_image (fun _ _ _ => 0) 10 10 5 85 1 = some (10, 10, 85) ∧
    (0 ≤ 5 ∧ min 85 6 ≤ 85 ∧ 85 ≤ 85) := by
  have h1 : reduce_quality (fun _ _ _ => 0) 10 10 5 85 = 85 := by
    rw [reduce_quality]
    norm_num
  have h2 : compress_image (fun _ _ _ => 0) 10 10 5 85 1 =
      some (10, 10, 85) := by
    simp [compress_image, h1, shrink_dims]
  exact ⟨h2,
    compress_image_size_and_quality_bounds (fun _ _ _ => 0)
      10 10 5 85 1 10 10 85 h2⟩

/-! ### Claim C3: segment search returns valid, disjoint segments -/

/-- Every enumerated candidate window has a well-formed inclusive
range. -/
theorem mem_enumerate_windows_start_le {doc_id : String} {vals : List ℚ}
    {max_length : ℕ} {minimum_value : ℚ} {w : Window}
    (hw : w ∈ enumerate_windows doc_id vals max_length minimum_value) :
    w.chunk_start ≤ w.chunk_end := by
  unfold enumerate_windows at hw
  simp only [List.mem_flatMap, List.mem_filterMap, List.mem_range] at hw
  obtain ⟨i, _, k, _, hif⟩ := hw
  split at hif
  · obtain rfl := Option.some.inj hif
    exact Nat.le_add_right i k
  · exact absurd hif (by simp)

/-- Overlap of windows is symmetric. -/
theorem overlaps_symm {w1 w2 : Window} (h : overlaps w1 w2) :
    overlaps w2 w1 :=
  ⟨h.1.symm, h.2.2, h.2.1⟩

/-- Every window returned by the greedy selection comes from the
accumulator or from the candidate list. -/
theorem greedy_go_subset (max_segments overall_max_length : ℕ) :
    ∀ cands acc used (w : Window),
      w ∈ greedy_go max_segments overall_max_length cands acc used →
      w ∈ acc ∨ w ∈ cands := by
  intro cands
  induction cands with
  | nil =>
    intro acc used w hw
    exact Or.inl (List.mem_reverse.1 hw)
  | cons c rest ih =>
    intro acc used w hw
    rw [greedy_go] at hw
    split at hw
    · rcases ih _ _ _ hw with h | h
      · rcases List.mem_cons.mp h with rfl | h2
        · exact Or.inr (List.mem_cons_self _ _)
        · exact Or.inl h2
      · exact Or.inr (List.mem_cons_of_mem _ h)
    · rcases ih _ _ _ hw with h | h
      · exact Or.inl h
      · exact Or.inr (List.mem_cons_of_mem _ h)

/-- The greedy selection preserves pairwise non-overlap of the
accumulator: the result list is pairwise non-overlapping. -/
theorem greedy_go_pairwise (max_segments overall_max_length : ℕ) :
    ∀ cands acc used,
      acc.Pairwise (fun a c => ¬ overlaps a c) →
      (greedy_go max_segments overall_max_length cands acc used).Pairwise
        (fun a c => ¬ overlaps a c) := by
  intro cands
  induction cands with
  | nil =>
    intro acc used hacc
    exact List.pairwise_reverse.2
      (hacc.imp fun h hov => h (overlaps_symm hov))
  | cons c rest ih =>
    intro acc used hacc
    rw [greedy_go]
    split
    · next hc =>
      exact ih _ _ (List.Pairwise.cons (fun a ha => hc.1 a ha) hacc)
    · exact ih _ _ hacc

/-- C3: every segment returned by the segment search engine satisfies
`chunk_start ≤ chunk_end`, and no two returned segments of the same
document overlap in chunk index range — each chunk belongs to at most
one returned segment. -/
theorem segment_search_segments_valid_and_disjoint
    (docs : List (String × List ℚ)) (p : Preset) :
    (∀ w ∈ segment_search docs p, w.chunk_start ≤ w.chunk_end) ∧
    (segment_search docs p).Pairwise
      (fun w1 w2 => w1.doc_id = w2.doc_id →
        w1.chunk_end < w2.chunk_start ∨ w2.chunk_end < w1.chunk_start) := by
  constructor
  · intro w hw
    rcases greedy_go_subset _ _ _ _ _ _ hw with h | h
    · exact absurd h (List.not_mem_nil w)
    · have h2 := (List.mergeSort_perm
        (docs.flatMap fun d =>
          enumerate_windows d.1 d.2 p.max_length p.minimum_value)
        (fun a b => decide (b.value ≤ a.value))).mem_iff.1 h
      obtain ⟨d, _, hw2⟩ := List.mem_flatMap.1 h2
      exact mem_enumerate_windows_start_le hw2
  · refine (greedy_go_pairwise _ _ _ _ _ List.Pairwise.nil).imp ?_
    intro w1 w2 h hdoc
    have h2 : ¬ (w1.chunk_start ≤ w2.chunk_end ∧
        w2.chunk_start ≤ w1.chunk_end) :=
      fun hc => h ⟨hdoc, hc.1, hc.2⟩
    omega

/-! ### Claims C1 and C2: the Beta(0.4, 0.4) calibration transform -/

/-- The Beta(0.4, 0.4) integrand is nonnegative on `[0, 1]`. -/
theorem betaIntegrand_nonneg {t : ℝ} (h0 : 0 ≤ t) (h1 : t ≤ 1) :
    0 ≤ betaIntegrand 0.4 0.4 t :=
  mul_nonneg (Real.rpow_nonneg h0 _) (Real.rpow_nonneg (by linarith) _)

/-- The Beta(0.4, 0.4) integrand is positive on `(0, 1)`. -/
theorem betaIntegrand_pos {t : ℝ} (h0 : 0 < t) (h1 : t < 1) :
    0 < betaIntegrand 0.4 0.4 t :=
  mul_pos (Real.rpow_pos_of_pos h0 _) (Real.rpow_pos_of_pos (by linarith) _)

/-- Integrability on the left half `[0, 1/2]`: near 0 the integrand is
an integrable power `t ^ (0.4 - 1)` times a continuous factor. -/
theorem betaIntegrand_left_integrable :
    IntervalIntegrable (betaIntegrand 0.4 0.4) MeasureTheory.volume
      0 (1 / 2) := by
  unfold betaIntegrand
  apply IntervalIntegrable.mul_continuousOn
  · exact intervalIntegral.intervalIntegrable_rpow' (by norm_num)
  · apply continuousOn_of_forall_continuousAt
    intro x hx
    rw [Set.uIcc_of_le (by norm_num : (0 : ℝ) ≤ 1 / 2)] at hx
    have hne : (1 : ℝ) - x ≠ 0 := by
      have := hx.2
      intro h0
      linarith
    exact ContinuousAt.rpow_const
      ((continuous_const.sub continuous_id).continuousAt) (Or.inl hne)

/-- Integrability on the right half `[1/2, 1]`: near 1 the integrand is
an integrable power `(1 - t) ^ (0.4 - 1)` times a continuous factor. -/
theorem betaIntegrand_right_integrable :
    IntervalIntegrable (betaIntegrand 0.4 0.4) MeasureTheory.volume
      (1 / 2) 1 := by
  have key : IntervalIntegrable (fun x : ℝ => (1 - x) ^ ((0.4 : ℝ) - 1))
      MeasureTheory.volume (1 / 2) 1 := by
    have h := (intervalIntegral.intervalIntegrable_rpow'
      (a := 0) (b := 1 / 2) (r := (0.4 : ℝ) - 1) (by norm_num)).comp_sub_left 1
    have e1 : (1 : ℝ) - 0 = 1 := by norm_num
    have e2 : (1 : ℝ) - 1 / 2 = 1 / 2 := by norm_num
    rw [e1, e2] at h
    exact h.symm
  have hrw : betaIntegrand 0.4 0.4 =
      fun t : ℝ => (1 - t) ^ ((0.4 : ℝ) - 1) * t ^ ((0.4 : ℝ) - 1) := by
    funext t
    unfold betaIntegrand
    ring
  rw [hrw]
  apply key.mul_continuousOn
  apply continuousOn_of_forall_continuousAt
  intro x hx
  rw [Set.uIcc_of_le (by norm_num : (1 : ℝ) / 2 ≤ 1)] at hx
  have hne : x ≠ 0 := by
    have := hx.1
    intro h0
    rw [h0] at this
    norm_num at this
  exact ContinuousAt.rpow_const continuousAt_id (Or.inl hne)

/-- The Beta(0.4, 0.4) integrand is interval integrable on `[0, 1]`. -/
theorem betaIntegrand_integrable :
    IntervalIntegrable (betaIntegrand 0.4 0.4) MeasureTheory.volume 0 1 :=
  betaIntegrand_left_integrable.trans betaIntegrand_right_integrable

/-- The Beta(0.4, 0.4) integrand is interval integrable on `[0, x]` for
every `x` in `[0, 1]`. -/
theorem betaIntegrand_integrable_sub {x : ℝ} (h0 : 0 ≤ x) (h1 : x ≤ 1) :
    IntervalIntegrable (betaIntegrand 0.4 0.4) MeasureTheory.volume 0 x :=
  betaIntegrand_integrable.mono_set (by
    rw [Set.uIcc_of_le h0, Set.uIcc_of_le (by norm_num : (0 : ℝ) ≤ 1)]
    exact Set.Icc_subset_Icc le_rfl h1)

/-- The Beta(0.4, 0.4) normalizing constant is positive. -/
theorem betaNormalization_pos : 0 < betaNormalization 0.4 0.4 := by
  unfold betaNormalization
  exact intervalIntegral.intervalIntegral_pos_of_pos_on
    betaIntegrand_integrable
    (fun t ht => betaIntegrand_pos ht.1 ht.2) (by norm_num)

/-- The Beta(0.4, 0.4) integrand is almost everywhere nonnegative on
`(0, d]` for `d ≤ 1`. -/
theorem betaIntegrand_ae_nonneg {d : ℝ} (hd : d ≤ 1) :
    0 ≤ᵐ[MeasureTheory.volume.restrict (Set.Ioc 0 d)]
      betaIntegrand 0.4 0.4 :=
  Filter.eventually_of_mem
    (MeasureTheory.self_mem_ae_restrict measurableSet_Ioc)
    (fun t ht => betaIntegrand_nonneg ht.1.le (ht.2.trans hd))

/-- The incomplete Beta integral is monotone in its upper limit on
`[0, 1]`. -/
theorem betaIntegral_mono {x1 x2 : ℝ} (h0 : 0 ≤ x1) (h12 : x1 ≤ x2)
    (h2 : x2 ≤ 1) :
    (∫ t in (0 : ℝ)..x1, betaIntegrand 0.4 0.4 t) ≤
      ∫ t in (0 : ℝ)..x2, betaIntegrand 0.4 0.4 t :=
  intervalIntegral.integral_mono_interval le_rfl h0 h12
    (betaIntegrand_ae_nonneg h2)
    (betaIntegrand_integrable_sub (h0.trans h12) h2)

/-- The calibrated score is nonnegative on `[0, 1]`. -/
theorem transform_nonneg {x : ℝ} (h0 : 0 ≤ x) (h1 : x ≤ 1) :
    0 ≤ transform x := by
  unfold transform betaCdf
  exact div_nonneg
    (intervalIntegral.integral_nonneg h0
      (fun u hu => betaIntegrand_nonneg hu.1 (hu.2.trans h1)))
    betaNormalization_pos.le

/-- The calibrated score is at most 1 on `[0, 1]`. -/
theorem transform_le_one {x : ℝ} (h0 : 0 ≤ x) (h1 : x ≤ 1) :
    transform x ≤ 1 := by
  unfold transform betaCdf
  rw [div_le_one betaNormalization_pos]
  exact betaIntegral_mono h0 h1 le_rfl

/-- The calibrated score is monotone non-decreasing on `[0, 1]`. -/
theorem transform_mono {x1 x2 : ℝ} (h0 : 0 ≤ x1) (h12 : x1 ≤ x2)
    (h2 : x2 ≤ 1) : transform x1 ≤ transform x2 := by
  unfold transform betaCdf
  exact (div_le_div_iff_of_pos_right betaNormalization_pos).2
    (betaIntegral_mono h0 h12 h2)

/-- The calibrated score at 0 is 0. -/
theorem transform_zero : transform 0 = 0 := by
  unfold transform betaCdf
  rw [intervalIntegral.integral_same, zero_div]

/-- The calibrated score at 1 is 1. -/
theorem transform_one : transform 1 = 1 := by
  have h : transform 1 =
      betaNormalization 0.4 0.4 / betaNormalization 0.4 0.4 := rfl
  rw [h]
  exact div_self (ne_of_gt betaNormalization_pos)

/-- C1: for every raw relevance score `x` in `[0, 1]`, the calibrated
score equals the cumulative distribution function of the Beta
distribution with shape parameters `a = b = 0.4` at `x`, and it lies in
`[0, 1]`. -/
theorem transform_is_beta_cdf_unit_range (x : ℝ) (h0 : 0 ≤ x)
    (h1 : x ≤ 1) :
    transform x = betaCdf 0.4 0.4 x ∧ 0 ≤ transform x ∧ transform x ≤ 1 :=
  ⟨rfl, transform_nonneg h0 h1, transform_le_one h0 h1⟩

/-- Witness for C1 at `x = 1/2`. -/
theorem transform_is_beta_cdf_unit_range_witness :
    (0 : ℝ) ≤ 1 / 2 ∧ (1 : ℝ) / 2 ≤ 1 ∧
    (transform (1 / 2) = betaCdf 0.4 0.4 (1 / 2) ∧
      0 ≤ transform (1 / 2) ∧ transform (1 / 2) ≤ 1) :=
  ⟨by norm_num, by norm_num,
   transform_is_beta_cdf_unit_range (1 / 2) (by norm_num) (by norm_num)⟩

/-- C2: the calibration transform is monotone non-decreasing on
`[0, 1]` and fixes the endpoints: `F 0 = 0` and `F 1 = 1`. -/
theorem transform_monotone_and_endpoints (x1 x2 : ℝ) (h0 : 0 ≤ x1)
    (h12 : x1 < x2) (h2 : x2 ≤ 1) :
    transform x1 ≤ transform x2 ∧ transform 0 = 0 ∧ transform 1 = 1 :=
  ⟨transform_mono h0 h12.le h2, transform_zero, transform_one⟩

/-- Witness for C2 at the pair `(1/4, 1/2)`. -/
theorem transform_monotone_and_endpoints_witness :
    (0 : ℝ) ≤ 1 / 4 ∧ (1 : ℝ) / 4 < 1 / 2 ∧ (1 : ℝ) / 2 ≤ 1 ∧
    (transform (1 / 4) ≤ transform (1 / 2) ∧ transform 0 = 0 ∧
      transform 1 = 1) :=
  ⟨by norm_num, by norm_num, by norm_num,
   transform_monotone_and_endpoints (1 / 4) (1 / 2) (by norm_num)
     (by norm_num) (by norm_num)⟩

/-! ### Claim C4: reranking is a score-calibrating permutation -/

/-- When every provider index is in range, `rerank_core` succeeds and
returns exactly the indexed results with calibrated similarities. -/
theorem rerank_core_eq_map (F : ℝ → ℝ) (sr : List SearchResult) :
    ∀ l : List (ℕ × ℝ), (∀ p ∈ l, p.1 < sr.length) →
      rerank_core F sr l =
        some (l.map fun p =>
          { sr.getD p.1 default with similarity := F p.2 }) := by
  intro l
  induction l with
  | nil => intro _; rfl
  | cons p rest ih =>
    intro h
    have hp : p.1 < sr.length := h p (List.mem_cons_self _ _)
    have h1 : sr[p.1]? = some (sr.getD p.1 default) := by
      rw [List.getElem?_eq_getElem hp, List.getD_eq_getElem sr default hp]
    have h2 := ih (fun q hq => h q (List.mem_cons_of_mem _ hq))
    simp only [rerank_core, h1, h2, List.map_cons]

/-- Reading a list back by indices `0, …, length - 1` reproduces it. -/
theorem range_map_getD {α : Type} [Inhabited α] :
    ∀ l : List α,
      (List.range l.length).map (fun i => l.getD i default) = l := by
  intro l
  induction l with
  | nil => rfl
  | cons a t ih =>
    show (List.range (t.length + 1)).map _ = _
    rw [List.range_succ_eq_map, List.map_cons, List.map_map]
    have h : ((fun i => (a :: t).getD i default) ∘ Nat.succ) =
        fun i => t.getD i default := rfl
    rw [h, ih]
    rfl

/-- C4: for a query and a non-empty result list, when the rerank
provider returns a permutation of the input indices,
`rerank_search_results` returns the correspondingly reordered search
results; the i-th returned similarity is the calibration transform of
the i-th provider relevance score, and provider scores in `[0, 1]`
yield similarities in `[0, 1]`. -/
theorem rerank_search_results_permutation_scores (query : String)
    (sr : List SearchResult)
    (provider : String → List String → List (ℕ × ℝ))
    (_hne : sr ≠ [])
    (hperm : ((provider query (sr.map rerankDocument)).map Prod.fst).Perm
      (List.range sr.length))
    (hsc : ∀ q ∈ provider query (sr.map rerankDocument),
      0 ≤ q.2 ∧ q.2 ≤ 1) :
    ∃ out, rerank_search_results query sr provider = some out ∧
      (out.map stripSimilarity).Perm (sr.map stripSimilarity) ∧
      ∀ (i : ℕ) (q : ℕ × ℝ),
        (provider query (sr.map rerankDocument))[i]? = some q →
        ∃ r0, sr[q.1]? = some r0 ∧
          out[i]? = some { r0 with similarity := transform q.2 } ∧
          0 ≤ transform q.2 ∧ transform q.2 ≤ 1 := by
  have hbound : ∀ p ∈ provider query (sr.map rerankDocument),
      p.1 < sr.length := by
    intro p hp
    have h1 : p.1 ∈ (provider query (sr.map rerankDocument)).map Prod.fst :=
      List.mem_map_of_mem _ hp
    have h2 := hperm.mem_iff.1 h1
    simpa [List.mem_range] using h2
  refine ⟨(provider query (sr.map rerankDocument)).map
    (fun p => { sr.getD p.1 default with similarity := transform p.2 }),
    ?_, ?_, ?_⟩
  · exact rerank_core_eq_map transform sr _ hbound
  · rw [List.map_map]
    have hcomp : (stripSimilarity ∘ fun p : ℕ × ℝ =>
        { sr.getD p.1 default with similarity := transform p.2 }) =
        (fun i => stripSimilarity (sr.getD i default)) ∘ Prod.fst := rfl
    rw [hcomp, ← List.map_map]
    have h3 := hperm.map (fun i => stripSimilarity (sr.getD i default))
    have h4 : (List.range sr.length).map
        (fun i => stripSimilarity (sr.getD i default)) =
        sr.map stripSimilarity := by
      have h5 : (fun i => stripSimilarity (sr.getD i default)) =
          stripSimilarity ∘ (fun i => sr.getD i default) := rfl
      rw [h5, ← List.map_map, range_map_getD]
    rw [h4] at h3
    exact h3
  · intro i q hq
    have hqmem : q ∈ provider query (sr.map rerankDocument) :=
      List.getElem?_mem hq
    have hb := hbound q hqmem
    refine ⟨sr.getD q.1 default, ?_, ?_,
      transform_nonneg (hsc q hqmem).1 (hsc q hqmem).2,
      transform_le_one (hsc q hqmem).1 (hsc q hqmem).2⟩
    · rw [List.getElem?_eq_getElem hb, List.getD_eq_getElem sr default hb]
    · rw [List.getElem?_map, hq]
      rfl

/-- Witness for C4 on a concrete two-element result list with the
provider returning the index permutation `[1, 0]`. -/
theorem rerank_search_results_permutation_scores_witness :
    ([⟨"h1", "t1", 0⟩, ⟨"h2", "t2", 0⟩] : List SearchResult) ≠ [] ∧
    (([((1 : ℕ), (1 : ℝ) / 2), (0, 1 / 4)].map Prod.fst).Perm
      (List.range 2)) ∧
    (∃ out, rerank_search_results "query"
        [⟨"h1", "t1", 0⟩, ⟨"h2", "t2", 0⟩]
        (fun _ _ => [(1, (1 : ℝ) / 2), (0, 1 / 4)]) = some out ∧
      (out.map stripSimilarity).Perm
        (([⟨"h1", "t1", 0⟩, ⟨"h2", "t2", 0⟩] : List SearchResult).map
          stripSimilarity) ∧
      ∀ (i : ℕ) (q : ℕ × ℝ),
        ([((1 : ℕ), (1 : ℝ) / 2), (0, 1 / 4)])[i]? = some q →
        ∃ r0, ([⟨"h1", "t1", 0⟩, ⟨"h2", "t2", 0⟩] :
            List SearchResult)[q.1]? = some r0 ∧
          out[i]? = some { r0 with similarity := transform q.2 } ∧
          0 ≤ transform q.2 ∧ transform q.2 ≤ 1) := by
  refine ⟨by simp, by decide, ?_⟩
  exact rerank_search_results_permutation_scores "query"
    [⟨"h1", "t1", 0⟩, ⟨"h2", "t2", 0⟩]
    (fun _ _ => [(1, (1 : ℝ) / 2), (0, 1 / 4)])
    (by simp) (by decide)
    (by
      intro q hq
      rcases List.mem_cons.mp hq with rfl | hq2
      · constructor <;> norm_num
      · rcases List.mem_cons.mp hq2 with rfl | hq3
        · constructor <;> norm_num
        · exact absurd hq3 (List.not_mem_nil q))
